import Mathlib

/-!
# Verification of the GOAI Progress & Dependency Engine

Shallow embedding of the derived-state logic of the GOAI tracker:

* the streak calculator of `frontend/src/pages/Goals.tsx`
  (`calculateCurrentStreak`, `calculateLongestStreak`, and the
  total-completions computation in `fetchData` / `handleTrackHabit`);
* the dependency processing of the tasks page
  (`processTasksWithDependencies`, `handleToggleComplete`) and the
  dependency synchronisation of `TaskForm.tsx` (`handleSubmit`, step 2).

Calendar dates are embedded as integers (day numbers).  The source stores
dates as `YYYY-MM-DD` strings and compares them either lexicographically
(`localeCompare`) or as UTC-midnight timestamps (`getTime`); both agree
with the ordering and equality of day numbers, and the source's
"previous day" arithmetic (`setUTCDate(d - 1)`) is subtraction by one.
-/

namespace GOAI

/-- A habit progress event.  The source row also carries `id`, `user_id`
and `habit_id`; the streak functions read only `event_date`, and all
events handed to them belong to a single habit of a single user. -/
structure ProgressEvent where
  event_date : Int
deriving DecidableEq

/-- The event dates sorted descending, as produced by
`[...progressEvents].sort((a, b) => b.event_date.localeCompare(a.event_date))`
in `calculateCurrentStreak`.  The sort comparator only looks at
`event_date`, so we sort the projected dates. -/
def sortedDatesDesc (events : List ProgressEvent) : List Int :=
  List.insertionSort (fun a b => b ≤ a) (events.map (·.event_date))

/-- The event dates sorted ascending, as produced by
`[...progressEvents].sort((a, b) => a.event_date.localeCompare(b.event_date))`
in `calculateLongestStreak`. -/
def sortedDatesAsc (events : List ProgressEvent) : List Int :=
  List.insertionSort (fun a b => a ≤ b) (events.map (·.event_date))

/-- The backwards walk of `calculateCurrentStreak`: starting from a
`streak` already counted and the next `expected` date, consume events
while each one equals the expected date, decrementing the expectation by
one day per match; stop at the first mismatch (`break`). -/
def streakWalk : List Int → Int → Nat → Nat
  | [], _, streak => streak
  | d :: rest, expected, streak =>
    if d = expected then streakWalk rest (expected - 1) (streak + 1) else streak

/-- The function `calculateCurrentStreak` of `Goals.tsx` (lines 201-259).  `today` is
the current UTC date (`todayUTC` in the source).  The source returns 0 for
an empty list; otherwise it sorts descending, returns 0 unless the most
recent date is `today` or `today - 1`, seeds the streak with 1, and walks
the remaining events (starting at index 1 when the most recent date is
`today`, at index 0 when it is `today - 1`) against an expected date that
starts at `today - 1` resp. `today - 2`. -/
def calculateCurrentStreak (events : List ProgressEvent) (today : Int) : Nat :=
  match sortedDatesDesc events with
  | [] => 0
  | mostRecent :: rest =>
    if mostRecent = today then
      streakWalk rest (today - 1) 1
    else if mostRecent = today - 1 then
      streakWalk (mostRecent :: rest) (today - 2) 1
    else 0

/-- The scan state of `calculateLongestStreak`: the running
`longestStreak`, `currentStreak`, and `previousEventDate`. -/
structure StreakScan where
  longest : Nat
  current : Nat
  prev : Option Int
deriving DecidableEq

/-- One iteration of the loop of `calculateLongestStreak` on event date
`d`: on the first event, start a streak of 1; on a duplicate of the
previous date, `continue` (state unchanged); on the consecutive day,
increment the streak; otherwise record the broken streak in the maximum
and restart at 1.  Each non-`continue` iteration ends with
`longestStreak = max longestStreak currentStreak`. -/
def streakStep (s : StreakScan) (d : Int) : StreakScan :=
  match s.prev with
  | none => { longest := max s.longest 1, current := 1, prev := some d }
  | some p =>
    if d = p then s
    else if d = p + 1 then
      { longest := max s.longest (s.current + 1), current := s.current + 1, prev := some d }
    else
      { longest := max (max s.longest s.current) 1, current := 1, prev := some d }

/-- The final `longestStreak = Math.max(longestStreak, currentStreak)`
performed after the loop of `calculateLongestStreak`. -/
def scanFinish (s : StreakScan) : Nat :=
  max s.longest s.current

/-- The function `calculateLongestStreak` of `Goals.tsx` (lines 263-321): 0 for an
empty list, otherwise the loop above over the ascending-sorted dates,
followed by the final `longestStreak = max longestStreak currentStreak`. -/
def calculateLongestStreak (events : List ProgressEvent) : Nat :=
  if events.isEmpty then 0
  else scanFinish ((sortedDatesAsc events).foldl streakStep ⟨0, 0, none⟩)

/-- The longest-streak computation resumed from an intermediate scan
state `s` on the remaining date list `l`. -/
def scanRes (s : StreakScan) (l : List Int) : Nat :=
  scanFinish (l.foldl streakStep s)

/-- The total-completions figure of `Goals.tsx`: both `fetchData`
(`const total = habitProgress.length` at line 409) and `handleTrackHabit`
(`updatedProgressForHabit.length` at line 523) use the raw length of the
habit's event list. -/
def totalCompletions (events : List ProgressEvent) : Nat :=
  events.length

/-- The spec's `totalCompletions` (spec 4.2): "number of distinct dates
(not raw event count)".  Stated from the spec's words, for comparison
with the source's `totalCompletions`. -/
def specTotalCompletions (events : List ProgressEvent) : Nat :=
  (events.map (·.event_date)).dedup.length

/-- A task row as the tasks page sees it.  The row also carries
`description`, `due_date`, `goal_id`, `created_at`; the dependency logic
reads only `id`, `title` and `completed`. -/
structure Task where
  id : String
  title : String
  completed : Bool
deriving DecidableEq

/-- A `task_dependencies` row ("blockingTask must be completed before
dependentTask").  The row also carries `id`, `user_id`, `created_at`;
all rows handed to the logic below belong to one user. -/
structure TaskDependency where
  blocking_task_id : String
  dependent_task_id : String
deriving DecidableEq

/-- The `{ id, title, completed }` record that
`processTasksWithDependencies` copies out of a blocking task. -/
structure BlockerInfo where
  id : String
  title : String
  completed : Bool
deriving DecidableEq

/-- The augmented task produced by `processTasksWithDependencies`
(mirrors `TaskWithDetails extends Task` of the source, flattened). -/
structure TaskWithDetails where
  id : String
  title : String
  completed : Bool
  blockingTasks : List BlockerInfo
  isBlocked : Bool
deriving DecidableEq

/-- Lookup in `taskMap = new Map(rawTasks.map(task => [task.id, task]))`.
A JS `Map` built from an entry list keeps the last entry for a repeated
key, so the lookup finds the last task with the given id. -/
def taskMapGet (tasks : List Task) (tid : String) : Option Task :=
  tasks.reverse.find? (fun t => t.id == tid)

/-- The per-key content of `blockedByMap`: the loop over `dependencies`
appends, in order, one `{ id, title, completed }` record per edge whose
`dependent_task_id` is the key — skipping edges whose
`blocking_task_id` has no task (`if (blockingTask)`). -/
def dependencyBlockers (tasks : List Task) (deps : List TaskDependency)
    (tid : String) : List BlockerInfo :=
  deps.filterMap (fun dep =>
    match taskMapGet tasks dep.blocking_task_id with
    | some bt =>
      if dep.dependent_task_id == tid then some ⟨bt.id, bt.title, bt.completed⟩ else none
    | none => none)

/-- The function `processTasksWithDependencies` of the tasks page (lines 37-68):
augment each task with its blocker records and
`isBlocked = blockingTasks.some(blocker => !blocker.completed)`. -/
def processTasksWithDependencies (tasks : List Task) (deps : List TaskDependency) :
    List TaskWithDetails :=
  tasks.map (fun t =>
    let blocking := dependencyBlockers tasks deps t.id
    { id := t.id, title := t.title, completed := t.completed,
      blockingTasks := blocking,
      isBlocked := blocking.any (fun b => !b.completed) })

/-- The alert text issued by `handleToggleComplete` when the task is
blocked.  It interpolates only the task's title. -/
def blockedAlertMessage (title : String) : String :=
  "Cannot complete task: \x22" ++ title ++
    "\x22. It is blocked by incomplete prerequisite tasks."

/-- The handler `handleToggleComplete` of the tasks page (lines 184-213), as a pure
state transformer on the `tasks` list.  When `task.isBlocked` the handler
alerts and returns before any update, leaving the list unchanged;
otherwise the task row's `completed` flag is flipped in the store and the
matching list entry is overwritten with the new flag.  The `Option
String` is the alert raised on rejection (`none` on success). -/
def handleToggleComplete (tasks : List TaskWithDetails) (task : TaskWithDetails) :
    List TaskWithDetails × Option String :=
  if task.isBlocked then
    (tasks, some (blockedAlertMessage task.title))
  else
    (tasks.map (fun t => if t.id == task.id then { t with completed := !task.completed } else t),
     none)

/-- The blockers the task list UI displays for a blocked task
(`task.blockingTasks?.filter(t => !t.completed)`): the outstanding
(incomplete) blockers. -/
def outstandingBlockers (task : TaskWithDetails) : List BlockerInfo :=
  task.blockingTasks.filter (fun b => !b.completed)

/-- The checkbox `disabled` condition of the task list
(`task.isBlocked && !task.completed`, line 307). -/
def checkboxDisabled (task : TaskWithDetails) : Bool :=
  task.isBlocked && !task.completed

/-- The `blocking_task_id`s of the edges whose dependent is `depId` —
the `existingBlockingIds` fetched in step 2 of `TaskForm.handleSubmit`. -/
def existingBlockingIds (edges : List TaskDependency) (depId : String) : List String :=
  (edges.filter (fun e => e.dependent_task_id == depId)).map (·.blocking_task_id)

/-- Step 2 of `TaskForm.handleSubmit` (lines 388-427): the dependency
synchronisation for the saved task `depId` against the multi-select
`selected`.  It computes `idsToAdd = selected \ existing` and
`idsToRemove = existing \ selected`, inserts one edge per id to add, and
deletes the edges of `depId` whose blocking id is in `idsToRemove`.
There is no other check — in particular no cycle or self-dependency
check — and no failure path besides store errors.  The source binds
`idsToAdd = selected.filter(id => !existing.includes(id))` and
`idsToRemove = existing.filter(id => !selected.includes(id))`; both are
inlined below. -/
def syncDependencies (edges : List TaskDependency) (depId : String)
    (selected : List String) : List TaskDependency :=
  (edges ++
      (selected.filter
        (fun i => !((existingBlockingIds edges depId).contains i))).map
      (fun b => TaskDependency.mk b depId)).filter
    (fun e => !(e.dependent_task_id == depId &&
      ((existingBlockingIds edges depId).filter
        (fun i => !(selected.contains i))).contains e.blocking_task_id))

/-- Reachability `blocksWithin edges n x y`: task `x` transitively blocks task `y`
through a chain of at most `n` edges.  (Stated from the spec's words in
4.3 — "reject if `dependentId` already (transitively) blocks
`blockingId`" — to express the cycle precondition of the claim; the
source performs no such computation.) -/
def blocksWithin (edges : List TaskDependency) : Nat → String → String → Bool
  | 0, _, _ => false
  | n + 1, x, y =>
    edges.any (fun e => e.blocking_task_id == x &&
      (e.dependent_task_id == y || blocksWithin edges n e.dependent_task_id y))

/-- The cycle precondition of spec 4.3 for a new edge
`blockingId → dependentId`: the dependent already (transitively) blocks
the blocking task through existing edges.  A path, if one exists, exists
with at most `edges.length` edges. -/
def createsCycle (edges : List TaskDependency) (blockingId dependentId : String) : Bool :=
  blocksWithin edges edges.length dependentId blockingId

/-- A one-edge store: task `A` blocks task `B`. -/
def cycleEdges : List TaskDependency := [⟨"A", "B"⟩]

/-- A blocked task titled `T` whose sole outstanding blocker is titled
`Blocker A`. -/
def blockedTaskA : TaskWithDetails :=
  ⟨"t1", "T", false, [⟨"x", "Blocker A", false⟩], true⟩

/-- A blocked task titled `T` whose sole outstanding blocker is titled
`Blocker B`. -/
def blockedTaskB : TaskWithDetails :=
  ⟨"t2", "T", false, [⟨"y", "Blocker B", false⟩], true⟩

/-- A gap-free run: `N` consecutive daily completion events ending on `asOf`, one event
on each of the days `asOf - (N - 1), ..., asOf`. -/
def runEvents (asOf : Int) (n : Nat) : List ProgressEvent :=
  (List.range n).map (fun i : Nat => ⟨asOf - (i : Int)⟩)

/-- A small task store for witnesses: `A` (incomplete) and `C`. -/
def exTasks : List Task := [⟨"a", "A", false⟩, ⟨"c", "C", false⟩]

/-- One edge: `A` blocks `C`. -/
def exDeps : List TaskDependency := [⟨"a", "c"⟩]

/-- The entry for `C` produced by `processTasksWithDependencies exTasks
exDeps`. -/
def exProcessedC : TaskWithDetails := ⟨"c", "C", false, [⟨"a", "A", false⟩], true⟩

/-- A task that is both completed and blocked (its blocker is open). -/
def completedBlockedTask : TaskWithDetails :=
  ⟨"t9", "Done", true, [⟨"z", "Open blocker", false⟩], true⟩

/-! ## Basic lemmas about the sorted date lists -/

theorem mem_sortedDatesDesc {events : List ProgressEvent} {x : Int} :
    x ∈ sortedDatesDesc events ↔ x ∈ events.map (·.event_date) :=
  List.mem_insertionSort _

theorem mem_sortedDatesAsc {events : List ProgressEvent} {x : Int} :
    x ∈ sortedDatesAsc events ↔ x ∈ events.map (·.event_date) :=
  List.mem_insertionSort _

/-- Unfolding of `calculateCurrentStreak` once the sorted date list is
known to be non-empty. -/
theorem calculateCurrentStreak_eq (events : List ProgressEvent) (today : Int)
    (h : Int) (t : List Int) (hs : sortedDatesDesc events = h :: t) :
    calculateCurrentStreak events today =
      if h = today then streakWalk t (today - 1) 1
      else if h = today - 1 then streakWalk (h :: t) (today - 2) 1
      else 0 := by
  unfold calculateCurrentStreak
  rw [hs]

/-! ## Claim C2: totalCompletions vs distinct dates -/

/-- C2 (counterexample): on two events carrying the same date, the
source's total-completions figure is the raw event count 2, not the
number 1 of distinct dates — the second event on the same date is
counted again, contradicting the claim. -/
theorem C2_raw_count_counterexample :
    totalCompletions [⟨5⟩, ⟨5⟩] = 2 ∧ specTotalCompletions [⟨5⟩, ⟨5⟩] = 1 ∧
      totalCompletions [⟨5⟩, ⟨5⟩] ≠ specTotalCompletions [⟨5⟩, ⟨5⟩] := by
  decide

/-- C2 (amended): `totalCompletions` is the raw event count, and it
agrees with the spec's distinct-date count exactly when the event dates
are pairwise distinct. -/
theorem C2_totalCompletions_eq_distinct_iff (events : List ProgressEvent) :
    totalCompletions events = specTotalCompletions events ↔
      (events.map (·.event_date)).Nodup := by
  unfold totalCompletions specTotalCompletions
  constructor
  · intro h
    have hlen : ((events.map (·.event_date)).dedup).length =
        (events.map (·.event_date)).length := by
      rw [← h, List.length_map]
    exact List.dedup_eq_self.mp
      ((List.dedup_sublist (events.map (·.event_date))).eq_of_length hlen)
  · intro h
    rw [List.dedup_eq_self.mpr h, List.length_map]

/-! ## Claim C4: derived blocked status -/

theorem mem_dependencyBlockers {tasks : List Task} {deps : List TaskDependency}
    {tid : String} {b : BlockerInfo} :
    b ∈ dependencyBlockers tasks deps tid ↔
      ∃ dep ∈ deps, dep.dependent_task_id = tid ∧
        ∃ bt, taskMapGet tasks dep.blocking_task_id = some bt ∧
          b = ⟨bt.id, bt.title, bt.completed⟩ := by
  unfold dependencyBlockers
  rw [List.mem_filterMap]
  constructor
  · rintro ⟨dep, hdep, hf⟩
    refine ⟨dep, hdep, ?_⟩
    rcases hbt : taskMapGet tasks dep.blocking_task_id with _ | bt <;> rw [hbt] at hf
    · simp at hf
    · dsimp only at hf
      by_cases hid : dep.dependent_task_id = tid
      · rw [if_pos (by simpa using hid)] at hf
        exact ⟨hid, bt, rfl, (Option.some.inj hf).symm⟩
      · rw [if_neg (by simpa using hid)] at hf
        exact absurd hf (by simp)
  · rintro ⟨dep, hdep, hid, bt, hbt, rfl⟩
    exact ⟨dep, hdep, by simp [hbt, hid]⟩

/-- C4: a task produced by `processTasksWithDependencies` is blocked iff
some dependency edge names it as dependent and the edge's blocking id
resolves in the task map to a task whose `completed` flag is false; and
a task no edge names as dependent is never blocked. -/
theorem C4_isBlocked_iff (tasks : List Task) (deps : List TaskDependency)
    (tw : TaskWithDetails) (htw : tw ∈ processTasksWithDependencies tasks deps) :
    (tw.isBlocked = true ↔
      ∃ dep ∈ deps, dep.dependent_task_id = tw.id ∧
        ∃ bt, taskMapGet tasks dep.blocking_task_id = some bt ∧ bt.completed = false)
    ∧ ((∀ dep ∈ deps, dep.dependent_task_id ≠ tw.id) → tw.isBlocked = false) := by
  obtain ⟨t, ht, rfl⟩ := List.mem_map.mp htw
  have hiff : ((dependencyBlockers tasks deps t.id).any (fun b => !b.completed)) = true ↔
      ∃ dep ∈ deps, dep.dependent_task_id = t.id ∧
        ∃ bt, taskMapGet tasks dep.blocking_task_id = some bt ∧ bt.completed = false := by
    rw [List.any_eq_true]
    constructor
    · rintro ⟨b, hb, hbc⟩
      obtain ⟨dep, hdep, hid, bt, hbt, rfl⟩ := mem_dependencyBlockers.mp hb
      exact ⟨dep, hdep, hid, bt, hbt, by simpa using hbc⟩
    · rintro ⟨dep, hdep, hid, bt, hbt, hbtc⟩
      exact ⟨⟨bt.id, bt.title, bt.completed⟩,
        mem_dependencyBlockers.mpr ⟨dep, hdep, hid, bt, hbt, rfl⟩, by simp [hbtc]⟩
  refine ⟨hiff, fun hnone => ?_⟩
  rw [Bool.eq_false_iff]
  intro hbl
  obtain ⟨dep, hdep, hid, _⟩ := hiff.mp hbl
  exact hnone dep hdep hid

theorem C4_isBlocked_iff_witness : exProcessedC.isBlocked = true :=
  ((C4_isBlocked_iff exTasks exDeps exProcessedC (by decide)).1).mpr
    ⟨⟨"a", "c"⟩, by decide, by decide, ⟨"a", "A", false⟩, by decide, by decide⟩

/-! ## Claim C9: dangling edges are ignored -/

theorem taskMapGet_eq_none {tasks : List Task} {bid : String}
    (h : ∀ t ∈ tasks, t.id ≠ bid) : taskMapGet tasks bid = none := by
  unfold taskMapGet
  rw [List.find?_eq_none]
  intro t ht
  simp only [beq_iff_eq]
  exact h t (List.mem_reverse.mp ht)

theorem dependencyBlockers_dangling (tasks : List Task)
    (deps1 deps2 : List TaskDependency) (e : TaskDependency) (tid : String)
    (hnone : taskMapGet tasks e.blocking_task_id = none) :
    dependencyBlockers tasks (deps1 ++ e :: deps2) tid =
      dependencyBlockers tasks (deps1 ++ deps2) tid := by
  unfold dependencyBlockers
  rw [List.filterMap_append, List.filterMap_append, List.filterMap_cons]
  simp [hnone]

/-- C9: an edge whose blocking id matches no task's id is skipped by
`processTasksWithDependencies`: removing it from the edge list changes
nothing in the output (in particular every task's blocked status), and
the computation is total — no failure occurs. -/
theorem C9_dangling_edge_ignored (tasks : List Task)
    (deps1 deps2 : List TaskDependency) (e : TaskDependency)
    (h : ∀ t ∈ tasks, t.id ≠ e.blocking_task_id) :
    processTasksWithDependencies tasks (deps1 ++ e :: deps2) =
      processTasksWithDependencies tasks (deps1 ++ deps2) := by
  have hnone := taskMapGet_eq_none h
  unfold processTasksWithDependencies
  refine List.map_congr_left fun t ht => ?_
  rw [dependencyBlockers_dangling tasks deps1 deps2 e t.id hnone]

theorem C9_dangling_edge_ignored_witness :
    processTasksWithDependencies [⟨"a", "A", false⟩] [⟨"ghost", "a"⟩] =
      processTasksWithDependencies [⟨"a", "A", false⟩] [] :=
  C9_dangling_edge_ignored [⟨"a", "A", false⟩] [] [] ⟨"ghost", "a"⟩ (by decide)

/-! ## Claim C5: rejection of completing a blocked task -/

/-- C5 (counterexample): the rejection output of `handleToggleComplete`
does not name the outstanding blockers — two blocked tasks whose
outstanding blockers differ (`Blocker A` vs `Blocker B`) produce the
identical alert, so the blockers cannot be recovered from the failure. -/
theorem C5_error_counterexample :
    outstandingBlockers blockedTaskA ≠ outstandingBlockers blockedTaskB ∧
    (handleToggleComplete [blockedTaskA] blockedTaskA).2 =
      (handleToggleComplete [blockedTaskB] blockedTaskB).2 ∧
    ((handleToggleComplete [blockedTaskA] blockedTaskA).2).isSome = true := by
  decide

/-- C5 (amended): toggling a blocked task is rejected — the handler
returns the task list unchanged together with an alert that names the
task's title (but not its outstanding blockers). -/
theorem C5_blocked_toggle_rejected (tasks : List TaskWithDetails)
    (task : TaskWithDetails) (h : task.isBlocked = true) :
    handleToggleComplete tasks task = (tasks, some (blockedAlertMessage task.title)) := by
  simp [handleToggleComplete, h]

theorem C5_blocked_toggle_rejected_witness :
    handleToggleComplete [blockedTaskA] blockedTaskA =
      ([blockedTaskA], some (blockedAlertMessage "T")) :=
  C5_blocked_toggle_rejected [blockedTaskA] blockedTaskA (by decide)

/-! ## Claim C10: the guard rejects both directions -/

/-- C10: for a task that is completed and still blocked, the checkbox is
not even disabled, yet `handleToggleComplete` rejects the toggle — so the
task cannot be reverted to incomplete either: the guard fires on
`isBlocked` alone, not only on the blocked-to-complete transition. -/
theorem C10_blocked_completed_toggle_rejected (tasks : List TaskWithDetails)
    (task : TaskWithDetails) (hc : task.completed = true) (hb : task.isBlocked = true) :
    checkboxDisabled task = false ∧
      handleToggleComplete tasks task = (tasks, some (blockedAlertMessage task.title)) := by
  constructor
  · simp [checkboxDisabled, hb, hc]
  · simp [handleToggleComplete, hb]

theorem C10_blocked_completed_toggle_rejected_witness :
    checkboxDisabled completedBlockedTask = false ∧
      handleToggleComplete [completedBlockedTask] completedBlockedTask =
        ([completedBlockedTask], some (blockedAlertMessage "Done")) :=
  C10_blocked_completed_toggle_rejected [completedBlockedTask] completedBlockedTask
    (by decide) (by decide)

/-! ## Claim C1: no cycle detection at edge creation -/

/-- C1 (counterexample): with the stored edge `A blocks B`, submitting
the form for dependent task `A` with `B` selected as blocker is the
cycle-forming insertion the claim says must fail and leave the edge
count unchanged; the source has no such check — the call succeeds and
the edge count changes from 1 to 2. -/
theorem C1_cycle_edge_counterexample :
    createsCycle cycleEdges "B" "A" = true ∧
      (syncDependencies cycleEdges "A" ["B"]).length ≠ cycleEdges.length := by
  decide

/-- C1 (amended): edge creation performs no cycle detection.  If a newly
selected blocker `b` of `depId` would create a cycle (the dependent
already transitively blocks `b`), and no existing blocker is deselected,
the synchronisation still succeeds: the cycle-forming edge is stored and
the edge count strictly increases. -/
theorem C1_no_cycle_detection (edges : List TaskDependency) (depId b : String)
    (selected : List String)
    (hcyc : createsCycle edges b depId = true)
    (hsel : b ∈ selected)
    (hnew : b ∉ existingBlockingIds edges depId)
    (hkeep : ∀ i ∈ existingBlockingIds edges depId, i ∈ selected) :
    (⟨b, depId⟩ : TaskDependency) ∈ syncDependencies edges depId selected ∧
      edges.length < (syncDependencies edges depId selected).length := by
  unfold syncDependencies
  have hrem : (existingBlockingIds edges depId).filter
      (fun i => !(selected.contains i)) = [] := by
    rw [List.filter_eq_nil_iff]
    intro i hi
    simp [hkeep i hi]
  rw [hrem]
  have hfil : ∀ (l : List TaskDependency), l.filter
      (fun e => !(e.dependent_task_id == depId &&
        ([] : List String).contains e.blocking_task_id)) = l := by
    intro l
    refine List.filter_eq_self.mpr fun a _ => ?_
    simp
  rw [hfil]
  have hadd : b ∈ selected.filter
      (fun i => !((existingBlockingIds edges depId).contains i)) := by
    rw [List.mem_filter]
    exact ⟨hsel, by simp [hnew]⟩
  constructor
  · exact List.mem_append_right _ (List.mem_map.mpr ⟨b, hadd, rfl⟩)
  · rw [List.length_append, List.length_map]
    have : 0 < (selected.filter
        (fun i => !((existingBlockingIds edges depId).contains i))).length :=
      List.length_pos.mpr (List.ne_nil_of_mem hadd)
    omega

theorem C1_no_cycle_detection_witness :
    (⟨"B", "A"⟩ : TaskDependency) ∈ syncDependencies cycleEdges "A" ["B"] ∧
      cycleEdges.length < (syncDependencies cycleEdges "A" ["B"]).length :=
  C1_no_cycle_detection cycleEdges "A" "B" ["B"] (by decide) (by decide)
    (by decide) (by decide)

/-! ## Claim C8: stale streaks are zero -/

/-- C8: when the maximum event date `mx` of a non-empty event list is
more than one day before `asOf`, the current streak is 0 regardless of
the history. -/
theorem C8_stale_streak_zero (events : List ProgressEvent) (asOf mx : Int)
    (hmem : mx ∈ events.map (·.event_date))
    (hmax : ∀ d ∈ events.map (·.event_date), d ≤ mx)
    (hstale : 1 < asOf - mx) :
    calculateCurrentStreak events asOf = 0 := by
  rcases hs : sortedDatesDesc events with _ | ⟨h, t⟩
  · simp [calculateCurrentStreak, hs]
  · have hh : h ∈ events.map (·.event_date) := by
      rw [← mem_sortedDatesDesc, hs]
      exact List.mem_cons_self _ _
    have hle : h ≤ mx := hmax _ hh
    have hne1 : h ≠ asOf := by omega
    have hne2 : h ≠ asOf - 1 := by omega
    simp [calculateCurrentStreak, hs, hne1, hne2]

theorem C8_stale_streak_zero_witness :
    calculateCurrentStreak [⟨1⟩] 5 = 0 :=
  C8_stale_streak_zero [⟨1⟩] 5 1 (by decide) (by decide) (by decide)

/-! ## Lemmas about the longest-streak scan -/

theorem streakStep_prev (s : StreakScan) (d : Int) : (streakStep s d).prev = some d := by
  rcases s with ⟨L, c, _ | p⟩
  · rfl
  · by_cases h1 : d = p
    · simp [streakStep, h1]
    · by_cases h2 : d = p + 1 <;> simp [streakStep, h1, h2]

theorem streakStep_self {s : StreakScan} {d : Int} (h : s.prev = some d) :
    streakStep s d = s := by
  rcases s with ⟨L, c, _ | p⟩
  · simp at h
  · have hp : p = d := by simpa using h
    subst hp
    simp [streakStep]

theorem scanRes_nil (s : StreakScan) : scanRes s [] = scanFinish s := rfl

theorem scanRes_cons (s : StreakScan) (d : Int) (l : List Int) :
    scanRes s (d :: l) = scanRes (streakStep s d) l := rfl

/-- The result of the scan is at least the running maximum of any
intermediate state (for the initial state, whose `current` is 0 while
`prev` is still `none`). -/
theorem le_scanRes : ∀ (l : List Int) (s : StreakScan),
    (s.prev = none → s.current = 0) → scanFinish s ≤ scanRes s l
  | [], _, _ => le_of_eq rfl
  | d :: t, s, h => by
    have hstep : scanFinish s ≤ scanFinish (streakStep s d) := by
      rcases s with ⟨L, c, _ | p⟩
      · have hc : c = 0 := h rfl
        subst hc
        simp [streakStep, scanFinish]
      · unfold streakStep scanFinish
        by_cases h1 : d = p
        · simp [h1]
        · by_cases h2 : d = p + 1 <;> simp [h1, h2] <;> omega
    calc scanFinish s ≤ scanFinish (streakStep s d) := hstep
      _ ≤ scanRes (streakStep s d) t := le_scanRes t _ (by simp [streakStep_prev])
      _ = scanRes s (d :: t) := (scanRes_cons s d t).symm

/-- Run bonus, adjacent case: from a state whose previous date is `p`,
if the dates `p + 1, ..., p + k` all occur in the remaining sorted list
(whose elements are all ≥ `p`), the scan result is at least
`current + k`. -/
theorem scanRes_run_adjacent : ∀ (l : List Int) (k L c : Nat) (p : Int),
    l.Sorted (· ≤ ·) → (∀ x ∈ l, p ≤ x) →
    (∀ i : Nat, i < k → (p + 1 + i) ∈ l) →
    c + k ≤ scanRes ⟨L, c, some p⟩ l := by
  intro l
  induction l with
  | nil =>
    intro k L c p _ _ hrun
    rcases k with _ | k'
    · simpa [scanRes_nil, scanFinish] using Nat.le_max_right L c
    · exact absurd (hrun 0 (Nat.succ_pos _)) (by simp)
  | cons d t ih =>
    intro k L c p hsort hbound hrun
    rcases k with _ | k'
    · have hle := le_scanRes (d :: t) ⟨L, c, some p⟩ (by simp)
      calc c + 0 = c := rfl
        _ ≤ scanFinish ⟨L, c, some p⟩ := Nat.le_max_right L c
        _ ≤ _ := hle
    · have hp1 : p + 1 ∈ d :: t := by simpa using hrun 0 (Nat.succ_pos _)
      have hd : p ≤ d := hbound d (List.mem_cons_self d t)
      have hrest : ∀ x ∈ t, d ≤ x := List.rel_of_sorted_cons hsort
      by_cases hdp : d = p
      · rw [scanRes_cons, streakStep_self (by simp [hdp])]
        refine ih (k' + 1) L c p hsort.of_cons
          (fun x hx => hbound x (List.mem_cons_of_mem _ hx)) ?_
        intro i hi
        rcases List.mem_cons.mp (hrun i hi) with h1 | h1
        · exact absurd h1 (by omega)
        · exact h1
      · have hd1 : d = p + 1 := by
          rcases List.mem_cons.mp hp1 with h1 | h1
          · omega
          · have := hrest _ h1
            omega
        have hstep : streakStep ⟨L, c, some p⟩ d = ⟨max L (c + 1), c + 1, some d⟩ := by
          simp [streakStep, hdp, hd1]
        rw [scanRes_cons, hstep]
        have hK := ih k' (max L (c + 1)) (c + 1) d hsort.of_cons hrest ?_
        · omega
        · intro i hi
          have hmem := hrun (i + 1) (by omega)
          have hcast : p + 1 + ((i + 1 : Nat) : Int) = d + 1 + (i : Int) := by
            push_cast
            omega
          rw [hcast] at hmem
          rcases List.mem_cons.mp hmem with h1 | h1
          · exact absurd h1 (by omega)
          · exact h1

/-- Run bonus, general case: from a state whose previous date `p` lies
strictly below the run start `a`, if `a, a + 1, ..., a + k` all occur in
the remaining sorted list, the scan result is at least `k + 1`. -/
theorem scanRes_run_above : ∀ (l : List Int) (k L c : Nat) (p a : Int),
    l.Sorted (· ≤ ·) → (∀ x ∈ l, p ≤ x) → p < a →
    (∀ i : Nat, i ≤ k → (a + i) ∈ l) →
    k + 1 ≤ scanRes ⟨L, c, some p⟩ l := by
  intro l
  induction l with
  | nil =>
    intro k L c p a _ _ _ hrun
    have h0 := hrun 0 (Nat.zero_le _)
    simp at h0
  | cons d t ih =>
    intro k L c p a hsort hbound hpa hrun
    have ha0 : a ∈ d :: t := by simpa using hrun 0 (Nat.zero_le _)
    have hd : p ≤ d := hbound d (List.mem_cons_self d t)
    have hrest : ∀ x ∈ t, d ≤ x := List.rel_of_sorted_cons hsort
    by_cases hdp : d = p
    · rw [scanRes_cons, streakStep_self (by simp [hdp])]
      refine ih k L c p a hsort.of_cons
        (fun x hx => hbound x (List.mem_cons_of_mem _ hx)) hpa ?_
      intro i hi
      rcases List.mem_cons.mp (hrun i hi) with h1 | h1
      · exact absurd h1 (by omega)
      · exact h1
    · rcases lt_trichotomy d a with hda | hda | hda
      · obtain ⟨L', c', hstep⟩ :
            ∃ L' c', streakStep ⟨L, c, some p⟩ d = ⟨L', c', some d⟩ := by
          by_cases h2 : d = p + 1
          · exact ⟨max L (c + 1), c + 1, by simp [streakStep, hdp, h2]⟩
          · exact ⟨max (max L c) 1, 1, by simp [streakStep, hdp, h2]⟩
        rw [scanRes_cons, hstep]
        refine ih k L' c' d a hsort.of_cons hrest hda ?_
        intro i hi
        rcases List.mem_cons.mp (hrun i hi) with h1 | h1
        · exact absurd h1 (by omega)
        · exact h1
      · obtain ⟨L', c', hstep, hc'⟩ :
            ∃ L' c', streakStep ⟨L, c, some p⟩ d = ⟨L', c', some d⟩ ∧ 1 ≤ c' := by
          by_cases h2 : d = p + 1
          · exact ⟨max L (c + 1), c + 1, by simp [streakStep, hdp, h2], by omega⟩
          · exact ⟨max (max L c) 1, 1, by simp [streakStep, hdp, h2], by omega⟩
        rw [scanRes_cons, hstep]
        have hK := scanRes_run_adjacent t k L' c' d hsort.of_cons hrest ?_
        · omega
        · intro i hi
          have hmem := hrun (i + 1) (by omega)
          have hcast : a + ((i + 1 : Nat) : Int) = d + 1 + (i : Int) := by
            push_cast
            omega
          rw [hcast] at hmem
          rcases List.mem_cons.mp hmem with h1 | h1
          · exact absurd h1 (by omega)
          · exact h1
      · rcases List.mem_cons.mp ha0 with h1 | h1
        · omega
        · have := hrest _ h1
          omega

/-- From the initial scan state, a run `a, a + 1, ..., a + k` contained
in the sorted date list forces a scan result of at least `k + 1`. -/
theorem scanRes_run_start (l : List Int) (k L : Nat) (a : Int)
    (hsort : l.Sorted (· ≤ ·)) (hrun : ∀ i : Nat, i ≤ k → (a + i) ∈ l) :
    k + 1 ≤ scanRes ⟨L, 0, none⟩ l := by
  rcases l with _ | ⟨d, t⟩
  · have h0 := hrun 0 (Nat.zero_le _)
    simp at h0
  · have ha0 : a ∈ d :: t := by simpa using hrun 0 (Nat.zero_le _)
    have hrest : ∀ x ∈ t, d ≤ x := List.rel_of_sorted_cons hsort
    have hstep : streakStep ⟨L, 0, none⟩ d = ⟨max L 1, 1, some d⟩ := rfl
    rw [scanRes_cons, hstep]
    rcases lt_trichotomy d a with hda | hda | hda
    · refine scanRes_run_above t k (max L 1) 1 d a hsort.of_cons hrest hda ?_
      intro i hi
      rcases List.mem_cons.mp (hrun i hi) with h1 | h1
      · exact absurd h1 (by omega)
      · exact h1
    · have hK := scanRes_run_adjacent t k (max L 1) 1 d hsort.of_cons hrest ?_
      · omega
      · intro i hi
        have hmem := hrun (i + 1) (by omega)
        have hcast : a + ((i + 1 : Nat) : Int) = d + 1 + (i : Int) := by
          push_cast
          omega
        rw [hcast] at hmem
        rcases List.mem_cons.mp hmem with h1 | h1
        · exact absurd h1 (by omega)
        · exact h1
    · rcases List.mem_cons.mp ha0 with h1 | h1
      · omega
      · have := hrest _ h1
        omega

/-- Any run of `k + 1` consecutive dates present among an event list's
dates bounds `calculateLongestStreak` from below. -/
theorem longestStreak_ge_run (events : List ProgressEvent) (a : Int) (k : Nat)
    (hrun : ∀ i : Nat, i ≤ k → (a + i) ∈ events.map (·.event_date)) :
    k + 1 ≤ calculateLongestStreak events := by
  have h0 : a ∈ events.map (·.event_date) := by simpa using hrun 0 (Nat.zero_le _)
  have hne : events ≠ [] := by
    rintro rfl
    simp at h0
  unfold calculateLongestStreak
  rw [if_neg (by simpa [List.isEmpty_iff] using hne)]
  exact scanRes_run_start (sortedDatesAsc events) k 0 a
    (List.sorted_insertionSort _ _) (fun i hi => mem_sortedDatesAsc.mpr (hrun i hi))

/-! ## Claim C7: longest streak dominates current streak -/

/-- The backward walk counts `m` matched dates `e, e - 1, ..., e - m + 1`,
all of which occur in the walked list. -/
theorem streakWalk_spec : ∀ (l : List Int) (e : Int) (s : Nat),
    ∃ m : Nat, streakWalk l e s = s + m ∧ ∀ i : Nat, i < m → (e - i) ∈ l := by
  intro l
  induction l with
  | nil => exact fun e s => ⟨0, rfl, fun i hi => absurd hi (by omega)⟩
  | cons d t ih =>
    intro e s
    by_cases hd : d = e
    · obtain ⟨m, hm, hmem⟩ := ih (e - 1) (s + 1)
      refine ⟨m + 1, ?_, ?_⟩
      · rw [show streakWalk (d :: t) e s = streakWalk t (e - 1) (s + 1) by
          simp [streakWalk, hd], hm]
        omega
      · intro i hi
        rcases i with _ | j
        · have h0 : e - ((0 : Nat) : Int) = d := by omega
          rw [h0]
          exact List.mem_cons_self d t
        · have hj := hmem j (by omega)
          have hcast : e - ((j + 1 : Nat) : Int) = (e - 1) - (j : Int) := by
            push_cast
            ring
          rw [hcast]
          exact List.mem_cons_of_mem _ hj
    · exact ⟨0, by simp [streakWalk, hd], fun i hi => absurd hi (by omega)⟩

/-- C7: for every event list and every `asOf` date, the longest streak is
at least the current streak. -/
theorem C7_longest_ge_current (events : List ProgressEvent) (asOf : Int) :
    calculateCurrentStreak events asOf ≤ calculateLongestStreak events := by
  rcases hs : sortedDatesDesc events with _ | ⟨h, t⟩
  · simp [calculateCurrentStreak, hs]
  · have hmemh : h ∈ events.map (·.event_date) := by
      rw [← mem_sortedDatesDesc, hs]
      exact List.mem_cons_self _ _
    have hmemt : ∀ x ∈ t, x ∈ events.map (·.event_date) := by
      intro x hx
      rw [← mem_sortedDatesDesc, hs]
      exact List.mem_cons_of_mem _ hx
    rw [calculateCurrentStreak_eq events asOf h t hs]
    by_cases h1 : h = asOf
    · rw [if_pos h1]
      obtain ⟨m, hm, hwalk⟩ := streakWalk_spec t (asOf - 1) 1
      rw [hm]
      have hrun : ∀ i : Nat, i ≤ m → (asOf - m + i) ∈ events.map (·.event_date) := by
        intro i hi
        by_cases him : i = m
        · subst him
          have hx : asOf - (i : Int) + (i : Int) = asOf := by ring
          rw [hx, ← h1]
          exact hmemh
        · have hj := hwalk (m - 1 - i) (by omega)
          have hcast : (asOf - 1) - ((m - 1 - i : Nat) : Int) = asOf - m + i := by
            have hmi : ((m - 1 - i : Nat) : Int) = (m : Int) - 1 - i := by omega
            rw [hmi]
            ring
          rw [← hcast]
          exact hmemt _ hj
      have := longestStreak_ge_run events (asOf - m) m hrun
      omega
    · rw [if_neg h1]
      by_cases h2 : h = asOf - 1
      · rw [if_pos h2]
        have hw : streakWalk (h :: t) (asOf - 2) 1 = 1 := by
          have hne : h ≠ asOf - 2 := by omega
          simp [streakWalk, hne]
        rw [hw]
        have := longestStreak_ge_run events h 0 ?_
        · omega
        · intro i hi
          have hi0 : i = 0 := by omega
          subst hi0
          simpa using hmemh
      · rw [if_neg h2]
        exact Nat.zero_le _

/-! ## Claim C3: duplicate events -/

/-- C3 (counterexample): adding a second event on the already-present
date 5 changes `calculateCurrentStreak` (2 becomes 1 — the walk does not
deduplicate, and the duplicate breaks the backward march) and changes
`totalCompletions` (2 becomes 3 — it is the raw event count). -/
theorem C3_duplicate_counterexample :
    (⟨5⟩ : ProgressEvent).event_date ∈
        ([⟨5⟩, ⟨4⟩] : List ProgressEvent).map (·.event_date) ∧
      calculateCurrentStreak [⟨5⟩, ⟨5⟩, ⟨4⟩] 5 ≠ calculateCurrentStreak [⟨5⟩, ⟨4⟩] 5 ∧
      totalCompletions [⟨5⟩, ⟨5⟩, ⟨4⟩] ≠ totalCompletions [⟨5⟩, ⟨4⟩] := by
  decide

/-- Inserting an already-present date into a sorted list and rescanning
changes nothing: the freshly inserted duplicate lands immediately before
or after its twin, and the scan's same-day branch skips it. -/
theorem foldl_streakStep_orderedInsert (d : Int) :
    ∀ (l : List Int), l.Sorted (· ≤ ·) → d ∈ l → ∀ (s : StreakScan),
      (List.orderedInsert (· ≤ ·) d l).foldl streakStep s = l.foldl streakStep s := by
  intro l
  induction l with
  | nil =>
    intro _ hd
    simp at hd
  | cons x t ih =>
    intro hsort hd s
    by_cases hle : d ≤ x
    · have hdx : d = x := by
        rcases List.mem_cons.mp hd with h1 | h1
        · exact h1
        · have := List.rel_of_sorted_cons hsort _ h1
          omega
      subst hdx
      rw [show List.orderedInsert (· ≤ ·) d (d :: t) = d :: d :: t by
        simp [List.orderedInsert]]
      simp only [List.foldl_cons]
      rw [streakStep_self (streakStep_prev s d)]
    · have hdt : d ∈ t := by
        rcases List.mem_cons.mp hd with h1 | h1
        · omega
        · exact h1
      rw [show List.orderedInsert (· ≤ ·) d (x :: t) =
          x :: List.orderedInsert (· ≤ ·) d t by simp [List.orderedInsert, hle]]
      simp only [List.foldl_cons]
      exact ih hsort.of_cons hdt (streakStep s x)

/-- C3 (amended): adding a duplicate event whose date already occurs
leaves `calculateLongestStreak` unchanged (while, per the
counterexample, `calculateCurrentStreak` and `totalCompletions` may
change). -/
theorem C3_longestStreak_duplicate (e : ProgressEvent) (events : List ProgressEvent)
    (h : e.event_date ∈ events.map (·.event_date)) :
    calculateLongestStreak (e :: events) = calculateLongestStreak events := by
  have hne : events ≠ [] := by
    rintro rfl
    simp at h
  unfold calculateLongestStreak
  rw [if_neg (by simp), if_neg (by simpa [List.isEmpty_iff] using hne)]
  have hins : sortedDatesAsc (e :: events) =
      List.orderedInsert (· ≤ ·) e.event_date (sortedDatesAsc events) := rfl
  rw [hins, foldl_streakStep_orderedInsert e.event_date (sortedDatesAsc events)
    (List.sorted_insertionSort _ _) (mem_sortedDatesAsc.mpr h)]

theorem C3_longestStreak_duplicate_witness :
    calculateLongestStreak [⟨5⟩, ⟨5⟩, ⟨4⟩] = calculateLongestStreak [⟨5⟩, ⟨4⟩] :=
  C3_longestStreak_duplicate ⟨5⟩ [⟨5⟩, ⟨4⟩] (by decide)

/-! ## Claim C6: a gap-free run ending on asOf -/

theorem runEvents_dates (asOf : Int) (n : Nat) :
    (runEvents asOf n).map (·.event_date) =
      (List.range n).map (fun i : Nat => asOf - (i : Int)) := by
  simp [runEvents, List.map_map, Function.comp]

theorem run_map_succ (e : Int) (k : Nat) :
    (List.range (k + 1)).map (fun i : Nat => e - (i : Int)) =
      e :: (List.range k).map (fun i : Nat => (e - 1) - (i : Int)) := by
  rw [List.range_succ_eq_map, List.map_cons, List.map_map]
  congr 1
  · simp
  · refine List.map_congr_left fun i _ => ?_
    simp only [Function.comp_apply]
    push_cast
    ring

theorem sortedDesc_runEvents (asOf : Int) (n : Nat) :
    sortedDatesDesc (runEvents asOf n) =
      (List.range n).map (fun i : Nat => asOf - (i : Int)) := by
  unfold sortedDatesDesc
  rw [runEvents_dates]
  apply List.Sorted.insertionSort_eq
  rw [List.Sorted, List.pairwise_map]
  exact (List.pairwise_lt_range n).imp (fun hij => by omega)

theorem streakWalk_run (k : Nat) : ∀ (e : Int) (s : Nat),
    streakWalk ((List.range k).map (fun i : Nat => e - (i : Int))) e s = s + k := by
  induction k with
  | zero =>
    intro e s
    simp [streakWalk]
  | succ k ih =>
    intro e s
    rw [run_map_succ]
    rw [show streakWalk (e :: (List.range k).map (fun i : Nat => (e - 1) - (i : Int))) e s =
        streakWalk ((List.range k).map (fun i : Nat => (e - 1) - (i : Int))) (e - 1) (s + 1) by
      simp [streakWalk]]
    rw [ih (e - 1) (s + 1)]
    omega

/-- C6: on `n ≥ 1` consecutive daily events ending on `asOf` (one event
per day, no gaps, no duplicates), the current streak is exactly `n` and
the longest streak is at least `n`. -/
theorem C6_consecutive_run (asOf : Int) (n : Nat) (h : 1 ≤ n) :
    calculateCurrentStreak (runEvents asOf n) asOf = n ∧
      n ≤ calculateLongestStreak (runEvents asOf n) := by
  obtain ⟨m, rfl⟩ : ∃ m, n = m + 1 := ⟨n - 1, by omega⟩
  constructor
  · have hs : sortedDatesDesc (runEvents asOf (m + 1)) =
        asOf :: (List.range m).map (fun i : Nat => (asOf - 1) - (i : Int)) := by
      rw [sortedDesc_runEvents]
      simpa using run_map_succ asOf m
    rw [calculateCurrentStreak_eq _ asOf _ _ hs, if_pos rfl,
      streakWalk_run m (asOf - 1) 1]
    omega
  · refine longestStreak_ge_run _ (asOf - m) m ?_
    intro i hi
    rw [runEvents_dates]
    refine List.mem_map.mpr ⟨m - i, List.mem_range.mpr (by omega), ?_⟩
    have hmi : ((m - i : Nat) : Int) = (m : Int) - i := by omega
    rw [hmi]
    ring

theorem C6_consecutive_run_witness :
    calculateCurrentStreak (runEvents 10 3) 10 = 3 ∧
      3 ≤ calculateLongestStreak (runEvents 10 3) :=
  C6_consecutive_run 10 3 (by decide)

end GOAI
